import Mathlib

/-!
Verification of the devdonalds cookbook service (`src/backend/py_template/devdonalds.py`).

The Python handlers are shallowly embedded over a JSON value type `JVal`.
Python exceptions are modelled by the `Except PyExc` monad; the value
`PyExc.fuelOut` is reserved for exhaustion of the fuel that bounds the
(otherwise possibly nonterminating) recursive resolver, and so models
nontermination rather than a catchable exception.
-/

/-- JSON values as delivered by `request.get_json()`. Python `True`/`False`
are kept distinct from integers but count as integers for `isinstance`. -/
inductive JVal where
  | jnull
  | jbool (b : Bool)
  | jint (n : Int)
  | jstr (s : String)
  | jlist (xs : List JVal)
  | jobj (fs : List (String × JVal))
deriving Repr

/-- Modelled Python faults: `attrError` for `.get` on a non-dict (and
`.items()` on `None`), `typeError` for unsupported operand types,
`keyError` for `d[k]` on a missing key, `notFound name` for the
`Exception(f"Cannot find {name} in cookbook")` raised by the resolver,
and `fuelOut` for exhaustion of the recursion fuel (i.e. nontermination
of the unguarded recursion). -/
inductive PyExc where
  | attrError
  | typeError
  | keyError
  | notFound (name : JVal)
  | fuelOut
deriving Repr

/-- Python truthiness of a JSON value (`if not entry: ...`). -/
def JVal.falsy : JVal → Bool
  | .jnull => true
  | .jbool b => !b
  | .jint n => n == 0
  | .jstr s => s.isEmpty
  | .jlist xs => xs.isEmpty
  | .jobj fs => fs.isEmpty

/-- Python `isinstance(v, str)`. -/
def isStr : JVal → Bool
  | .jstr _ => true
  | _ => false

/-- Python `isinstance(v, int)`: booleans are integers in Python. -/
def isInt : JVal → Bool
  | .jint _ => true
  | .jbool _ => true
  | _ => false

/-- Python `v is None`. -/
def isNull : JVal → Bool
  | .jnull => true
  | _ => false

/-- The integer value of an int-like Python value (`True` is `1`). -/
def intVal : JVal → Int
  | .jint n => n
  | .jbool b => if b then 1 else 0
  | _ => 0

/-- The string carried by a `jstr`, defaulting to the empty string. -/
def strVal : JVal → String
  | .jstr s => s
  | _ => ""

/-- The elements carried by a `jlist`, defaulting to the empty list. -/
def listVal : JVal → List JVal
  | .jlist xs => xs
  | _ => []

/-- Tests whether a value is the string literal `s` (Python `v == "s"`). -/
def isStrVal (v : JVal) (s : String) : Bool :=
  match v with
  | .jstr t => t == s
  | _ => false

/-- Association-list lookup, the model of Python `dict` indexing by a
string key (Python dicts preserve insertion order, as does this list). -/
def alookup {α : Type} : List (String × α) → String → Option α
  | [], _ => none
  | (k, v) :: rest, s => if k = s then some v else alookup rest s

/-- Python `d[k] = v` on a dict: overwrite in place, else append. -/
def dset {α : Type} : List (String × α) → String → α → List (String × α)
  | [], k, v => [(k, v)]
  | (k', v') :: rest, k, v =>
      if k' = k then (k, v) :: rest else (k', v') :: dset rest k v

/-- Python `d.get(k, default)` on a dict. -/
def dget {α : Type} (d : List (String × α)) (k : String) (dflt : α) : α :=
  (alookup d k).getD dflt

/-- Python `v.get(k)` with default `None`, defined only on dicts; the
caller is responsible for knowing `v` is a dict. -/
def oget (v : JVal) (k : String) : JVal :=
  match v with
  | .jobj fs => dget fs k .jnull
  | _ => .jnull

/-- Python `v.get(k)`: returns the stored value (default `None`) on a
dict and raises `AttributeError` on anything else. -/
def jget (v : JVal) (k : String) : Except PyExc JVal :=
  match v with
  | .jobj fs => .ok (dget fs k .jnull)
  | _ => .error .attrError

/-- Python `v.get(k, dflt)`: like `jget` but with an explicit default. -/
def jgetD (v : JVal) (k : String) (dflt : JVal) : Except PyExc JVal :=
  match v with
  | .jobj fs => .ok (dget fs k dflt)
  | _ => .error .attrError

/-- A string repeated `n` times (Python `n * s`), empty for `n ≤ 0`. -/
def strRep (s : String) (n : Int) : String :=
  String.join (List.replicate n.toNat s)

/-- Python `a * b` on the JSON fragment of its values: integer (and
boolean) multiplication, plus string/list repetition by an integer;
anything else raises `TypeError`. -/
def pymul (a b : JVal) : Except PyExc JVal :=
  match a, b with
  | .jint _, .jint _ | .jint _, .jbool _ | .jbool _, .jint _ | .jbool _, .jbool _ =>
      .ok (.jint (intVal a * intVal b))
  | .jint _, .jstr s | .jbool _, .jstr s => .ok (.jstr (strRep s (intVal a)))
  | .jstr s, .jint _ | .jstr s, .jbool _ => .ok (.jstr (strRep s (intVal b)))
  | .jint _, .jlist xs | .jbool _, .jlist xs =>
      .ok (.jlist (List.flatten (List.replicate (intVal a).toNat xs)))
  | .jlist xs, .jint _ | .jlist xs, .jbool _ =>
      .ok (.jlist (List.flatten (List.replicate (intVal b).toNat xs)))
  | _, _ => .error .typeError

/-- Python `a + b` on the JSON fragment of its values: integer (and
boolean) addition, string concatenation, list concatenation; anything
else raises `TypeError`. -/
def pyadd (a b : JVal) : Except PyExc JVal :=
  match a, b with
  | .jint _, .jint _ | .jint _, .jbool _ | .jbool _, .jint _ | .jbool _, .jbool _ =>
      .ok (.jint (intVal a + intVal b))
  | .jstr s, .jstr t => .ok (.jstr (s ++ t))
  | .jlist xs, .jlist ys => .ok (.jlist (xs ++ ys))
  | _, _ => .error .typeError

/-- The cookbook: the module-level `cookbook` dict, mapping entry names to
the raw JSON entry payloads stored by `create_entry`. -/
abbrev Cookbook := List (String × JVal)

/-- Python `name in cookbook` for an arbitrary key value: a non-string
key never matches since all keys are strings. -/
def cblookup (cb : Cookbook) (name : JVal) : Option JVal :=
  match name with
  | .jstr s => alookup cb s
  | _ => none

/-- Outcome of the `create_entry` handler, transport layer aside:
`created` is the `('', 200)` success return and `badReq msg` is a
`(msg, 400)` rejection. -/
inductive CResp where
  | created
  | badReq (msg : String)
deriving Repr, DecidableEq

/-- The `for element in requiredItems` validation loop of `create_entry`:
returns `some msg` for an early `(msg, 400)` return, `none` when the loop
completes, and raises when `.get` is applied to a non-dict element.
`seen` accumulates the names already processed (the Python `seen` set). -/
def checkItems : List JVal → List String → Except PyExc (Option String)
  | [], _ => .ok none
  | item :: rest, seen =>
    match jget item "name" with
    | .error e => .error e
    | .ok rn =>
      match rn with
      | .jstr s =>
        if s = "" then .ok (some "Invalid requiredItem name")
        else if seen.contains s then
          .ok (some "Invalid required items, multiple of the same name")
        else
          match jget item "quantity" with
          | .error e => .error e
          | .ok q =>
            if isInt q then checkItems rest (s :: seen)
            else .ok (some "Invalid requiredItem quantity")
      | _ => .ok (some "Invalid requiredItem name")

/-- The `create_entry` handler: validates the JSON payload `entry` against
the cookbook `cb` and returns the HTTP-level outcome together with the
cookbook afterwards (unchanged on every rejection and on every raised
fault; extended by `cookbook[name] = entry` on success). -/
def create_entry (entry : JVal) (cb : Cookbook) : Except PyExc CResp × Cookbook :=
  if entry.falsy then (.ok (.badReq "Invalid entry format"), cb)
  else
    match entry with
    | .jobj _ =>
      let ty := oget entry "type"
      let requiredItems := if isStrVal ty "recipe" then oget entry "requiredItems" else .jnull
      let cookTime := if isStrVal ty "ingredient" then oget entry "cookTime" else .jnull
      if !(isStrVal ty "recipe" || isStrVal ty "ingredient") then
        (.ok (.badReq "Type must be recipe or ingredient"), cb)
      else
        match oget entry "name" with
        | .jstr s =>
          if s = "" then (.ok (.badReq "Invalid name"), cb)
          else if isStrVal ty "ingredient" &&
              (isNull cookTime || !isInt cookTime || decide (intVal cookTime < 0)) then
            (.ok (.badReq "Invalid cookTime"), cb)
          else if (alookup cb s).isSome then
            (.ok (.badReq "Entry names must be unique"), cb)
          else if isStrVal ty "recipe" then
            match requiredItems with
            | .jlist items =>
              match checkItems items [] with
              | .error e => (.error e, cb)
              | .ok (some msg) => (.ok (.badReq msg), cb)
              | .ok none => (.ok .created, dset cb s entry)
            | _ => (.ok (.badReq "Invalid requiredItems"), cb)
          else (.ok .created, dset cb s entry)
        | _ => (.ok (.badReq "Invalid name"), cb)
    | _ => (.error .attrError, cb)

/-- Python `total = {}; for k, q in sub.items(): total[k] = total.get(k, 0) + q`,
the merge loop inside `get_base_ingredient_counts`: folds the resolved
sub-mapping `sub` into the accumulator `acc`, summing on key collision
(`+` is Python `+`, which may raise `TypeError`). -/
def mergeInto : List (String × JVal) → List (String × JVal) → Except PyExc (List (String × JVal))
  | acc, [] => .ok acc
  | acc, (k, q) :: rest =>
    match pyadd (dget acc k (.jint 0)) q with
    | .error e => .error e
    | .ok v => mergeInto (dset acc k v) rest

/-- The `for item in entry.get('requiredItems')` loop of
`get_base_ingredient_counts`, parameterised by the recursive resolver
`res` (applied at one less fuel by `resolveF`). A `none` sub-result is
Python `None`, on which `.items()` raises `AttributeError`. -/
def resolveItems (res : JVal → JVal → Except PyExc (Option (List (String × JVal))))
    (mult : JVal) : List JVal → List (String × JVal) → Except PyExc (List (String × JVal))
  | [], acc => .ok acc
  | item :: rest, acc =>
    match jget item "name" with
    | .error e => .error e
    | .ok subName =>
      match jget item "quantity" with
      | .error e => .error e
      | .ok q =>
        match pymul mult q with
        | .error e => .error e
        | .ok m2 =>
          match res subName m2 with
          | .error e => .error e
          | .ok none => .error .attrError
          | .ok (some sub) =>
            match mergeInto acc sub with
            | .error e => .error e
            | .ok acc2 => resolveItems res mult rest acc2

/-- `get_base_ingredient_counts(name, multiplier)`, fuel-indexed: the source
recursion has no cycle guard, so each recursive call burns one unit of fuel
and running out is reported as `PyExc.fuelOut` (modelling nontermination).
A missing name raises (`Exception(f"Cannot find ... in cookbook")`,
modelled by `keyError` carrying no message); an entry whose `type` is
neither `'ingredient'` nor `'recipe'` falls off the end of the Python
function and returns `None`, modelled by the `.ok none` results. Iterating
a non-list `requiredItems` is modelled exactly for the empty-string and
empty-dict cases (zero iterations) and by `TypeError`/`AttributeError`
otherwise, matching what Python raises. -/
def resolveF : Nat → Cookbook → JVal → JVal → Except PyExc (Option (List (String × JVal)))
  | 0, _, _, _ => .error .fuelOut
  | fuel + 1, cb, name, mult =>
    match name with
    | .jstr s =>
      match alookup cb s with
      | none => .error (.notFound name)
      | some entry =>
        match jget entry "type" with
        | .error e => .error e
        | .ok t =>
          if isStrVal t "ingredient" then .ok (some [(s, mult)])
          else if isStrVal t "recipe" then
            match jget entry "requiredItems" with
            | .error e => .error e
            | .ok ri =>
              match ri with
              | .jlist items =>
                match resolveItems (fun n m => resolveF fuel cb n m) mult items [] with
                | .error e => .error e
                | .ok d => .ok (some d)
              | .jstr s' => if s' = "" then .ok (some []) else .error .attrError
              | .jobj fs => if fs.isEmpty then .ok (some []) else .error .attrError
              | _ => .error .typeError
          else .ok none
    | _ => .error (.notFound name)

/-- Outcome of the `summary` handler, transport layer aside: `success s`
is the `jsonify(summary)` 200 response and `clientError msg` a
`(msg, 400)` rejection. -/
inductive SummaryOut where
  | success (s : JVal)
  | clientError (msg : String)
deriving Repr

/-- The cook-time accumulation loop of `summary`: for each resolved
`(ingredientName, quantity)` pair, looks the ingredient up (`cookbook[n]`,
raising `KeyError` if absent), reads `cookTime` with default `0`, and
accumulates `quantity * cookTime` and the `{name, quantity}` list. -/
def sumLoop (cb : Cookbook) : List (String × JVal) → JVal → List JVal →
    Except PyExc (JVal × List JVal)
  | [], total, lst => .ok (total, lst)
  | (k, q) :: rest, total, lst =>
    match alookup cb k with
    | none => .error .keyError
    | some ing =>
      match jgetD ing "cookTime" (.jint 0) with
      | .error e => .error e
      | .ok ct =>
        match pymul q ct with
        | .error e => .error e
        | .ok prod =>
          match pyadd total prod with
          | .error e => .error e
          | .ok total2 =>
            sumLoop cb rest total2 (lst ++ [.jobj [("name", .jstr k), ("quantity", q)]])

/-- The `summary` handler for query name `recipe`: not-found and type
checks, then the resolver inside `try/except Exception` (which catches
every modelled fault except `fuelOut`, since `fuelOut` stands for
nontermination rather than a raised exception), then the accumulation
loop, which runs outside the `try` so its faults propagate. -/
def summaryF (fuel : Nat) (cb : Cookbook) (recipe : String) : Except PyExc SummaryOut :=
  if recipe = "" || (alookup cb recipe).isNone then .ok (.clientError "Recipe not found")
  else
    match alookup cb recipe with
    | none => .error .keyError
    | some entry =>
      match jget entry "type" with
      | .error e => .error e
      | .ok t =>
        if !(isStrVal t "recipe") then .ok (.clientError "Can only summarise recipe types")
        else
          match resolveF fuel cb (.jstr recipe) (.jint 1) with
          | .error .fuelOut => .error .fuelOut
          | .error _ => .ok (.clientError "A base ingredient provided does not exist in the cookbook")
          | .ok none => .error .attrError
          | .ok (some d) =>
            match sumLoop cb d (.jint 0) [] with
            | .error e => .error e
            | .ok (total, lst) =>
              .ok (.success (.jobj [("name", .jstr recipe), ("cookTime", total),
                ("ingredients", .jlist lst)]))

/-- The spec's Entry datatype: an Ingredient with a cook time or a Recipe
with an ordered list of `(name, quantity)` required items. -/
inductive Entry where
  | ingredient (cookTime : Int)
  | recipe (requiredItems : List (String × Int))
deriving Repr, DecidableEq

/-- A typed registry in the spec's data model. -/
abbrev Reg := List (String × Entry)

/-- Resolution failures of the reference resolver: the spec's
`UnknownReference(name)`, plus fuel exhaustion mirroring the
nontermination possibility of the unguarded recursion. -/
inductive ResErr where
  | unknownReference (name : String)
  | fuelOut
deriving Repr, DecidableEq

/-- Reference merge, from the spec: fold the sub-mapping into the
accumulator, summing quantities for keys that already exist. -/
def mergeSpec : List (String × Int) → List (String × Int) → List (String × Int)
  | acc, [] => acc
  | acc, (k, q) :: rest => mergeSpec (dset acc k (dget acc k 0 + q)) rest

/-- Reference per-item loop, from the spec: for each RequiredItem
`(subName, quantity)`, recursively resolve `(subName, multiplier * quantity)`
and merge the result into the accumulator. -/
def resolveSpecItems (res : String → Int → Except ResErr (List (String × Int)))
    (m : Int) : List (String × Int) → List (String × Int) →
    Except ResErr (List (String × Int))
  | [], acc => .ok acc
  | (subName, q) :: rest, acc =>
    match res subName (m * q) with
    | .error e => .error e
    | .ok sub => resolveSpecItems res m rest (mergeSpec acc sub)

/-- Reference resolver, written from the spec's words (§4.2): look the
name up (absent fails `UnknownReference`), an Ingredient returns the
singleton `{name: multiplier}`, a Recipe merges the recursive resolutions
of its required items in order. Fuel-indexed exactly like `resolveF`, one
unit per recursive call. -/
def resolveSpecF : Nat → Reg → String → Int → Except ResErr (List (String × Int))
  | 0, _, _, _ => .error .fuelOut
  | fuel + 1, reg, name, m =>
    match alookup reg name with
    | none => .error (.unknownReference name)
    | some (.ingredient _) => .ok [(name, m)]
    | some (.recipe items) =>
        resolveSpecItems (fun n m2 => resolveSpecF fuel reg n m2) m items []

/-- Encodes a typed quantity mapping as the JSON-valued dict the Python
resolver produces. -/
def encD (d : List (String × Int)) : List (String × JVal) :=
  d.map (fun p => (p.1, .jint p.2))

/-- Translates a reference-resolver outcome to the corresponding Python
resolver outcome. -/
def trRes : Except ResErr (List (String × Int)) →
    Except PyExc (Option (List (String × JVal)))
  | .ok d => .ok (some (encD d))
  | .error (.unknownReference n) => .error (.notFound (.jstr n))
  | .error .fuelOut => .error .fuelOut

/-- Translates a reference-resolver outcome for the inner loop (whose
Python counterpart returns a bare dict, not an optional one). -/
def trResD : Except ResErr (List (String × Int)) →
    Except PyExc (List (String × JVal))
  | .ok d => .ok (encD d)
  | .error (.unknownReference n) => .error (.notFound (.jstr n))
  | .error .fuelOut => .error .fuelOut

/-- The typed reading of a stored RequiredItem dict. -/
def absItem (v : JVal) : String × Int :=
  (strVal (oget v "name"), intVal (oget v "quantity"))

/-- The typed reading of a stored entry dict. -/
def absEntry (v : JVal) : Entry :=
  if isStrVal (oget v "type") "ingredient" then .ingredient (intVal (oget v "cookTime"))
  else .recipe ((listVal (oget v "requiredItems")).map absItem)

/-- The typed reading of a whole cookbook. -/
def absCB (cb : Cookbook) : Reg :=
  cb.map (fun p => (p.1, absEntry p.2))

/-- The name field of a stored RequiredItem, as a string. -/
def itemName (v : JVal) : String := strVal (oget v "name")

/-- Pairwise distinctness of a list of names. -/
def distinctB : List String → Bool
  | [] => true
  | s :: rest => !rest.contains s && distinctB rest

/-- Well-formedness of a stored RequiredItem, exactly what the accepting
path of `create_entry` guarantees: a dict with a non-empty string `name`
and an `isinstance`-integer `quantity`. -/
def wfItem (v : JVal) : Bool :=
  match v with
  | .jobj _ =>
    (match oget v "name" with
     | .jstr s => !s.isEmpty
     | _ => false) && isInt (oget v "quantity")
  | _ => false

/-- Well-formedness of a stored entry, exactly what the accepting path of
`create_entry` guarantees: a dict whose `type` is `'ingredient'` with an
integer `cookTime ≥ 0`, or `'recipe'` with a list of well-formed
RequiredItems bearing pairwise-distinct names. -/
def wfEntry (v : JVal) : Bool :=
  match v with
  | .jobj _ =>
    (isStrVal (oget v "type") "ingredient" && isInt (oget v "cookTime") &&
      decide (0 ≤ intVal (oget v "cookTime")))
    ||
    (isStrVal (oget v "type") "recipe" &&
      (match oget v "requiredItems" with
       | .jlist items => items.all wfItem && distinctB (items.map itemName)
       | _ => false))
  | _ => false

/-- Well-formedness of a cookbook: every key is a non-empty name and every
stored value a well-formed entry. This is the Registry invariant that the
single write path establishes. -/
def wfCB (cb : Cookbook) : Bool :=
  cb.all (fun p => !p.1.isEmpty && wfEntry p.2)

/-- Builds a stored ingredient entry as `create_entry` would store it. -/
def mkIngredient (n : String) (ct : Int) : String × JVal :=
  (n, .jobj [("type", .jstr "ingredient"), ("name", .jstr n), ("cookTime", .jint ct)])

/-- Builds a stored RequiredItem dict. -/
def reqI (n : String) (q : Int) : JVal :=
  .jobj [("name", .jstr n), ("quantity", .jint q)]

/-- Builds a stored recipe entry as `create_entry` would store it. -/
def mkRecipe (n : String) (items : List JVal) : String × JVal :=
  (n, .jobj [("type", .jstr "recipe"), ("name", .jstr n), ("requiredItems", .jlist items)])

/-- The §8 example registry: egg and flour ingredients, dough of flour,
pasta of dough and egg. -/
def exCB : Cookbook :=
  [mkIngredient "egg" 10, mkIngredient "flour" 0,
   mkRecipe "dough" [reqI "flour" 2],
   mkRecipe "pasta" [reqI "dough" 1, reqI "egg" 3]]

/-- A registry with a diamond dependency: cake needs dough twice and flour
once directly, and dough needs flour, so flour is reached along two paths. -/
def diamondCB : Cookbook :=
  [mkIngredient "flour" 0,
   mkRecipe "dough" [reqI "flour" 2],
   mkRecipe "cake" [reqI "dough" 2, reqI "flour" 1]]

/-- A cyclic registry: recipe A requires recipe B which requires recipe A. -/
def cycCB : Cookbook :=
  [mkRecipe "A" [reqI "B" 1], mkRecipe "B" [reqI "A" 1]]

example : wfCB exCB = true := rfl
example : wfCB diamondCB = true := rfl
example : wfCB cycCB = true := rfl

example : resolveF 3 exCB (.jstr "pasta") (.jint 1)
    = .ok (some [("flour", .jint 2), ("egg", .jint 3)]) := rfl

example : resolveF 3 exCB (.jstr "pasta") (.jint 2)
    = .ok (some [("flour", .jint 4), ("egg", .jint 6)]) := rfl

example : resolveF 3 diamondCB (.jstr "cake") (.jint 1)
    = .ok (some [("flour", .jint 5)]) := rfl

example : resolveF 5 cycCB (.jstr "A") (.jint 1) = .error .fuelOut := rfl

example : resolveSpecF 3 (absCB exCB) "pasta" 1 = .ok [("flour", 2), ("egg", 3)] := rfl

example : summaryF 3 exCB "pasta"
    = .ok (.success (.jobj [("name", .jstr "pasta"), ("cookTime", .jint 30),
        ("ingredients", .jlist
          [.jobj [("name", .jstr "flour"), ("quantity", .jint 2)],
           .jobj [("name", .jstr "egg"), ("quantity", .jint 3)]])])) := rfl

example : create_entry (.jobj []) [] = (.ok (.badReq "Invalid entry format"), []) := rfl

lemma alookup_map {α β : Type} (f : α → β) :
    ∀ (l : List (String × α)) (s : String),
      alookup (l.map (fun p => (p.1, f p.2))) s = (alookup l s).map f := by
  intro l s
  induction l with
  | nil => rfl
  | cons p rest ih =>
    simp only [List.map_cons, alookup]
    split <;> simp [ih]

lemma alookup_mem {α : Type} :
    ∀ {l : List (String × α)} {s : String} {v : α}, alookup l s = some v → (s, v) ∈ l := by
  intro l
  induction l with
  | nil => intro s v h; simp [alookup] at h
  | cons p rest ih =>
    obtain ⟨k, w⟩ := p
    intro s v h
    simp only [alookup] at h
    split at h
    · rename_i heq
      cases h
      subst heq
      exact List.mem_cons_self _ _
    · right
      exact ih h

lemma wfCB_lookup {cb : Cookbook} (hwf : wfCB cb = true) {s : String} {v : JVal}
    (h : alookup cb s = some v) : ¬s.isEmpty ∧ wfEntry v = true := by
  have hm := alookup_mem h
  have := (List.all_eq_true.mp hwf) _ hm
  simp only [Bool.and_eq_true, Bool.not_eq_true'] at this
  exact ⟨by simp [this.1], this.2⟩

lemma isStrVal_eq {v : JVal} {s : String} (h : isStrVal v s = true) : v = .jstr s := by
  cases v <;> simp [isStrVal] at h ⊢
  exact h

lemma dget_encD (d : List (String × Int)) (k : String) :
    dget (encD d) k (.jint 0) = .jint (dget d k 0) := by
  induction d with
  | nil => rfl
  | cons p rest ih =>
    simp only [encD, dget, alookup, List.map_cons] at ih ⊢
    split <;> simp_all

lemma dset_encD (d : List (String × Int)) (k : String) (v : Int) :
    dset (encD d) k (.jint v) = encD (dset d k v) := by
  induction d with
  | nil => rfl
  | cons p rest ih =>
    simp only [encD, dset, List.map_cons] at ih ⊢
    split <;> simp_all

lemma encD_cons (k : String) (q : Int) (rest : List (String × Int)) :
    encD ((k, q) :: rest) = (k, .jint q) :: encD rest := rfl

lemma mergeInto_encD (a b : List (String × Int)) :
    mergeInto (encD a) (encD b) = .ok (encD (mergeSpec a b)) := by
  induction b generalizing a with
  | nil => rfl
  | cons p rest ih =>
    obtain ⟨k, q⟩ := p
    rw [encD_cons]
    simp only [mergeInto, mergeSpec]
    rw [dget_encD]
    simp only [pyadd, intVal]
    rw [dset_encD]
    exact ih (dset a k (dget a k 0 + q))

lemma pymul_int {q : JVal} (hq : isInt q = true) (m : Int) :
    pymul (.jint m) q = .ok (.jint (m * intVal q)) := by
  cases q <;> simp [isInt] at hq <;> rfl

lemma wfItem_elim {v : JVal} (h : wfItem v = true) :
    (∃ gs, v = .jobj gs) ∧ (∃ s, oget v "name" = .jstr s ∧ s ≠ "") ∧
      isInt (oget v "quantity") = true := by
  cases v
  case jobj fs =>
    simp only [wfItem, Bool.and_eq_true] at h
    obtain ⟨h1, h2⟩ := h
    refine ⟨⟨fs, rfl⟩, ?_, h2⟩
    cases hn : oget (.jobj fs) "name" <;> rw [hn] at h1
    case jstr s =>
      refine ⟨s, rfl, ?_⟩
      intro hs
      subst hs
      simp at h1
      exact absurd h1 (by decide)
    all_goals simp at h1
  all_goals simp [wfItem] at h

lemma wfEntry_elim {v : JVal} (h : wfEntry v = true) :
    (∃ fs, v = .jobj fs) ∧
    ((oget v "type" = .jstr "ingredient" ∧ isInt (oget v "cookTime") = true ∧
        0 ≤ intVal (oget v "cookTime")) ∨
     (oget v "type" = .jstr "recipe" ∧ ∃ items, oget v "requiredItems" = .jlist items ∧
        (∀ it ∈ items, wfItem it = true) ∧ distinctB (items.map itemName) = true)) := by
  cases v
  case jobj fs =>
    refine ⟨⟨fs, rfl⟩, ?_⟩
    simp only [wfEntry, Bool.or_eq_true, Bool.and_eq_true] at h
    rcases h with ⟨⟨hty, hint⟩, hge⟩ | ⟨hty, hreq⟩
    · exact Or.inl ⟨isStrVal_eq hty, hint, by simpa using hge⟩
    · refine Or.inr ⟨isStrVal_eq hty, ?_⟩
      cases hr : oget (.jobj fs) "requiredItems" <;> rw [hr] at hreq
      case jlist items =>
        simp only [Bool.and_eq_true, List.all_eq_true] at hreq
        exact ⟨items, rfl, fun it hit => hreq.1 it hit, hreq.2⟩
      all_goals simp at hreq
  all_goals simp [wfEntry] at h

lemma trResD_step (x : Except ResErr (List (String × Int))) :
    (match trResD x with
     | .error e => (.error e : Except PyExc (Option (List (String × JVal))))
     | .ok d => .ok (some d)) = trRes x := by
  rcases x with e | d
  · cases e <;> rfl
  · rfl

lemma jget_obj {v : JVal} (hobj : ∃ fs, v = .jobj fs) (k : String) :
    jget v k = .ok (oget v k) := by
  obtain ⟨fs, rfl⟩ := hobj
  rfl

lemma resolveItems_corr (cb : Cookbook) (reg : Reg) (f : Nat)
    (ih : ∀ n m, resolveF f cb (.jstr n) (.jint m) = trRes (resolveSpecF f reg n m)) :
    ∀ (items : List JVal), (∀ it ∈ items, wfItem it = true) →
      ∀ (m : Int) (acc : List (String × Int)),
      resolveItems (fun n m2 => resolveF f cb n m2) (.jint m) items (encD acc)
        = trResD (resolveSpecItems (fun n m2 => resolveSpecF f reg n m2) m
            (items.map absItem) acc) := by
  intro items
  induction items with
  | nil => intro _ m acc; rfl
  | cons item rest ihl =>
    intro hwf m acc
    have hit := hwf item (List.mem_cons_self _ _)
    obtain ⟨hobj, ⟨sub, hname, hsub⟩, hqint⟩ := wfItem_elim hit
    have habs : absItem item = (sub, intVal (oget item "quantity")) := by
      simp [absItem, hname, strVal]
    simp only [resolveItems, List.map_cons, resolveSpecItems, habs, strVal,
      jget_obj hobj, hname, pymul_int hqint]
    rw [ih sub (m * intVal (oget item "quantity"))]
    cases hspec : resolveSpecF f reg sub (m * intVal (oget item "quantity")) with
    | error e => cases e <;> rfl
    | ok d =>
      simp only [trRes, mergeInto_encD]
      exact ihl (fun it hit' => hwf it (List.mem_cons_of_mem _ hit')) m (mergeSpec acc d)

lemma resolveF_corr {cb : Cookbook} (hwf : wfCB cb = true) :
    ∀ (f : Nat) (name : String) (m : Int),
      resolveF f cb (.jstr name) (.jint m) = trRes (resolveSpecF f (absCB cb) name m) := by
  intro f
  induction f with
  | zero => intro name m; rfl
  | succ f ih =>
    intro name m
    simp only [resolveF, resolveSpecF, absCB, alookup_map]
    cases hv : alookup cb name with
    | none => rfl
    | some v =>
      obtain ⟨hne, hwfv⟩ := wfCB_lookup hwf hv
      obtain ⟨hobj, hcases⟩ := wfEntry_elim hwfv
      rcases hcases with ⟨hty, hint, hge⟩ | ⟨hty, items, hreq, hitems, hdist⟩
      · simp [jget_obj hobj, hty, absEntry, isStrVal, trRes, encD]
      · have hni : isStrVal (JVal.jstr "recipe") "ingredient" = false := rfl
        have habs : absEntry v = .recipe (items.map absItem) := by
          simp [absEntry, hty, isStrVal, hreq, listVal]
        simp only [jget_obj hobj, hty, habs, hni, isStrVal, Option.map_some, hreq]
        have hloop := resolveItems_corr cb (absCB cb) f ih items hitems m []
        simp only [encD, List.map_nil] at hloop
        rw [Option.map_some', habs, hloop, trResD_step]
        simp only [show ("recipe" == "ingredient") = false from rfl,
          show ("recipe" == "recipe") = true from rfl, Bool.false_eq_true, if_false, if_true]
        rfl

lemma resolveItems_mono {res res' : JVal → JVal → Except PyExc (Option (List (String × JVal)))}
    (h : ∀ n m, res n m ≠ .error .fuelOut → res' n m = res n m) (mult : JVal) :
    ∀ items acc, resolveItems res mult items acc ≠ .error .fuelOut →
      resolveItems res' mult items acc = resolveItems res mult items acc := by
  intro items
  induction items with
  | nil => intro acc _; rfl
  | cons item rest ih =>
    intro acc hne
    simp only [resolveItems] at hne ⊢
    cases hn : jget item "name" with
    | error e => simp [hn]
    | ok subName =>
      simp only [hn] at hne ⊢
      cases hq : jget item "quantity" with
      | error e => simp [hq]
      | ok q =>
        simp only [hq] at hne ⊢
        cases hm : pymul mult q with
        | error e => simp [hm]
        | ok m2 =>
          simp only [hm] at hne ⊢
          cases hr : res subName m2 with
          | error e =>
            simp only [hr] at hne
            have he : e ≠ .fuelOut := by
              intro he
              subst he
              exact hne rfl
            rw [h subName m2 (by rw [hr]; simp [he]), hr]
          | ok sub =>
            rw [h subName m2 (by rw [hr]; simp), hr]
            simp only [hr] at hne
            cases sub with
            | none => rfl
            | some d =>
              cases hmg : mergeInto acc d with
              | error e => simp [hmg]
              | ok acc2 =>
                simp only [hmg] at hne ⊢
                exact ih acc2 hne

lemma resolveF_mono_le (cb : Cookbook) :
    ∀ (f g : Nat), f ≤ g → ∀ name mult, resolveF f cb name mult ≠ .error .fuelOut →
      resolveF g cb name mult = resolveF f cb name mult := by
  intro f
  induction f with
  | zero => intro g _ name mult h; exact absurd rfl h
  | succ f ih =>
    intro g hfg name mult h
    cases g with
    | zero => exact absurd hfg (by omega)
    | succ g =>
      have hfg' : f ≤ g := by omega
      cases name with
      | jstr s =>
        simp only [resolveF] at h ⊢
        cases hv : alookup cb s with
        | none => simp [hv]
        | some entry =>
          simp only [hv] at h ⊢
          cases ht : jget entry "type" with
          | error e => simp [ht]
          | ok t =>
            simp only [ht] at h ⊢
            by_cases hing : isStrVal t "ingredient" = true
            · simp [hing]
            · simp only [hing, Bool.false_eq_true, if_false] at h ⊢
              by_cases hrec : isStrVal t "recipe" = true
              · simp only [hrec, if_true] at h ⊢
                cases hri : jget entry "requiredItems" with
                | error e => simp [hri]
                | ok ri =>
                  simp only [hri] at h ⊢
                  cases ri with
                  | jlist items =>
                    simp only [] at h ⊢
                    have hmono := @resolveItems_mono
                      (fun n m => resolveF f cb n m)
                      (fun n m => resolveF g cb n m)
                      (fun n m hnm => ih g hfg' n m hnm) mult items
                    cases hl : resolveItems (fun n m => resolveF f cb n m) mult items [] with
                    | error e =>
                      simp only [hl] at h
                      have he : e ≠ .fuelOut := by
                        intro hee
                        subst hee
                        exact h rfl
                      rw [hmono [] (by rw [hl]; simp [he]), hl]
                    | ok d => rw [hmono [] (by rw [hl]; simp), hl]
                  | jnull => rfl
                  | jbool b => rfl
                  | jint n => rfl
                  | jstr s2 => rfl
                  | jobj fs => rfl
              · simp [hrec]
      | jnull => rfl
      | jbool b => rfl
      | jint n => rfl
      | jlist xs => rfl
      | jobj fs => rfl

lemma summaryF_fuel_congr {cb : Cookbook} {recipe : String} {f g : Nat}
    (h : resolveF f cb (.jstr recipe) (.jint 1) = resolveF g cb (.jstr recipe) (.jint 1)) :
    summaryF f cb recipe = summaryF g cb recipe := by
  simp only [summaryF, h]

/-- Scales every quantity in a typed mapping by `k`. -/
def scaleSpec (k : Int) (d : List (String × Int)) : List (String × Int) :=
  d.map (fun p => (p.1, k * p.2))

/-- Scales every quantity in a JSON-valued mapping by `k`. -/
def scaleJ (k : Int) (d : List (String × JVal)) : List (String × JVal) :=
  d.map (fun p => (p.1, .jint (k * intVal p.2)))

lemma encD_scaleSpec (k : Int) (d : List (String × Int)) :
    encD (scaleSpec k d) = scaleJ k (encD d) := by
  induction d with
  | nil => rfl
  | cons p rest ih => simp [encD, scaleSpec, scaleJ, intVal, ih]

lemma dget_scaleSpec (k : Int) (d : List (String × Int)) (s : String) :
    dget (scaleSpec k d) s 0 = k * dget d s 0 := by
  induction d with
  | nil => simp [scaleSpec, dget, alookup]
  | cons p rest ih =>
    simp only [scaleSpec, List.map_cons, dget, alookup] at ih ⊢
    split <;> simp_all

lemma dset_scaleSpec (k : Int) (d : List (String × Int)) (s : String) (v : Int) :
    dset (scaleSpec k d) s (k * v) = scaleSpec k (dset d s v) := by
  induction d with
  | nil => rfl
  | cons p rest ih =>
    simp only [scaleSpec, List.map_cons, dset] at ih ⊢
    split <;> simp_all

lemma mergeSpec_scaleSpec (k : Int) :
    ∀ (b a : List (String × Int)),
      mergeSpec (scaleSpec k a) (scaleSpec k b) = scaleSpec k (mergeSpec a b) := by
  intro b
  induction b with
  | nil => intro a; rfl
  | cons p rest ih =>
    intro a
    obtain ⟨s, q⟩ := p
    simp only [scaleSpec, List.map_cons, mergeSpec]
    rw [show dget (List.map (fun p => (p.1, k * p.2)) a) s 0 = k * dget a s 0 from
      dget_scaleSpec k a s]
    rw [show k * dget a s 0 + k * q = k * (dget a s 0 + q) by ring]
    rw [show dset (List.map (fun p => (p.1, k * p.2)) a) s (k * (dget a s 0 + q))
        = scaleSpec k (dset a s (dget a s 0 + q)) from dset_scaleSpec k a s _]
    exact ih _

lemma resolveSpecItems_scale {res : String → Int → Except ResErr (List (String × Int))}
    {k : Int} (ih : ∀ n m, res n (k * m) = (res n m).map (scaleSpec k)) (m : Int) :
    ∀ items acc, resolveSpecItems res (k * m) items (scaleSpec k acc)
      = (resolveSpecItems res m items acc).map (scaleSpec k) := by
  intro items
  induction items with
  | nil => intro acc; rfl
  | cons p rest ihl =>
    intro acc
    obtain ⟨subName, q⟩ := p
    simp only [resolveSpecItems]
    rw [show k * m * q = k * (m * q) by ring, ih subName (m * q)]
    cases res subName (m * q) with
    | error e => rfl
    | ok sub =>
      simp only [Except.map]
      rw [mergeSpec_scaleSpec]
      exact ihl (mergeSpec acc sub)

lemma resolveSpecF_scale :
    ∀ (f : Nat) (reg : Reg) (n : String) (k m : Int),
      resolveSpecF f reg n (k * m) = (resolveSpecF f reg n m).map (scaleSpec k) := by
  intro f
  induction f with
  | zero => intro reg n k m; rfl
  | succ f ih =>
    intro reg n k m
    simp only [resolveSpecF]
    cases alookup reg n with
    | none => rfl
    | some e =>
      cases e with
      | ingredient ct => simp [Except.map, scaleSpec]
      | recipe items =>
        have := @resolveSpecItems_scale (fun n2 m2 => resolveSpecF f reg n2 m2)
          k (fun n2 m2 => ih reg n2 k m2) m items []
        simpa [scaleSpec] using this

/-- The rank of a resolver name argument: the rank of the string it
carries, `0` for non-strings (which fail lookup immediately). -/
def hvJ (h : String → Nat) : JVal → Nat
  | .jstr s => h s
  | _ => 0

/-- A rank function witnessing acyclicity of a cookbook's required-item
reference graph: on finite graphs such a strictly decreasing rank exists
exactly when the graph has no cycle (a topological height). -/
def rankOK (cb : Cookbook) (h : String → Nat) : Bool :=
  cb.all (fun p => (listVal (oget p.2 "requiredItems")).all (fun item =>
    decide (h (itemName item) < h p.1)))

lemma jget_ne_fuelOut (v : JVal) (k : String) : jget v k ≠ .error .fuelOut := by
  cases v <;> simp [jget]

lemma pymul_ne_fuelOut (a b : JVal) : pymul a b ≠ .error .fuelOut := by
  cases a <;> cases b <;> simp [pymul]

lemma pyadd_ne_fuelOut (a b : JVal) : pyadd a b ≠ .error .fuelOut := by
  cases a <;> cases b <;> simp [pyadd]

lemma jget_ok {v : JVal} {k : String} {x : JVal} (h : jget v k = .ok x) :
    oget v k = x ∧ ∃ fs, v = .jobj fs := by
  cases v <;> simp [jget, oget] at h ⊢
  exact h

lemma mergeInto_ne_fuelOut :
    ∀ (b acc : List (String × JVal)), mergeInto acc b ≠ .error .fuelOut := by
  intro b
  induction b with
  | nil => intro acc; simp [mergeInto]
  | cons p rest ih =>
    intro acc
    obtain ⟨k, q⟩ := p
    simp only [mergeInto]
    cases hp : pyadd (dget acc k (.jint 0)) q with
    | error e =>
      have he : e ≠ .fuelOut := fun hee => pyadd_ne_fuelOut (dget acc k (.jint 0)) q
        (by rw [hp, hee])
      simp [hp, he]
    | ok v => exact ih _

lemma resolveItems_ne_fuelOut
    {res : JVal → JVal → Except PyExc (Option (List (String × JVal)))} {mult : JVal} :
    ∀ items : List JVal,
      (∀ item ∈ items, ∀ n m2, jget item "name" = .ok n → res n m2 ≠ .error .fuelOut) →
      ∀ acc, resolveItems res mult items acc ≠ .error .fuelOut := by
  intro items
  induction items with
  | nil => intro _ acc; simp [resolveItems]
  | cons item rest ih =>
    intro hres acc
    simp only [resolveItems]
    cases hn : jget item "name" with
    | error e =>
      have he : e ≠ .fuelOut := fun hee => jget_ne_fuelOut item "name" (by rw [hn, hee])
      simp [hn, he]
    | ok subName =>
      cases hq : jget item "quantity" with
      | error e =>
        have he : e ≠ .fuelOut := fun hee => jget_ne_fuelOut item "quantity" (by rw [hq, hee])
        simp [hq, he]
      | ok q =>
        cases hm : pymul mult q with
        | error e =>
          have he : e ≠ .fuelOut := fun hee => pymul_ne_fuelOut mult q (by rw [hm, hee])
          simp [hm, he]
        | ok m2 =>
          cases hr : res subName m2 with
          | error e =>
            have he : e ≠ .fuelOut := fun hee =>
              hres item (List.mem_cons_self _ _) subName m2 hn (by rw [hr, hee])
            simp [hm, hr, he]
          | ok sub =>
            cases sub with
            | none => simp [hm, hr]
            | some d =>
              cases hmg : mergeInto acc d with
              | error e =>
                have he : e ≠ .fuelOut := fun hee => mergeInto_ne_fuelOut d acc
                  (by rw [hmg, hee])
                simp [hm, hr, hmg, he]
              | ok acc2 =>
                simp only [hm, hr, hmg]
                exact ih (fun it hit => hres it (List.mem_cons_of_mem _ hit)) acc2

lemma resolveF_rank (cb : Cookbook) (h : String → Nat) (hr : rankOK cb h = true) :
    ∀ (k : Nat) (name mult : JVal), hvJ h name ≤ k →
      resolveF (k + 1) cb name mult ≠ .error .fuelOut := by
  intro k
  induction k using Nat.strong_induction_on with
  | _ k ih =>
    intro name mult hk
    cases name with
    | jstr s =>
      simp only [resolveF]
      cases hv : alookup cb s with
      | none => simp
      | some entry =>
        cases ht : jget entry "type" with
        | error e =>
          have he : e ≠ .fuelOut := fun hee => jget_ne_fuelOut entry "type" (by rw [ht, hee])
          simp [ht, he]
        | ok t =>
          simp only [ht]
          by_cases hing : isStrVal t "ingredient" = true
          · simp [hing]
          · simp only [hing, Bool.false_eq_true, if_false]
            by_cases hrec : isStrVal t "recipe" = true
            · simp only [hrec, if_true]
              cases hri : jget entry "requiredItems" with
              | error e =>
                have he : e ≠ .fuelOut := fun hee =>
                  jget_ne_fuelOut entry "requiredItems" (by rw [hri, hee])
                simp [hri, he]
              | ok ri =>
                cases ri with
                | jlist items =>
                  have hdec : ∀ item ∈ items, h (itemName item) < h s := by
                    intro item hitem
                    have hmem := alookup_mem hv
                    have hall := List.all_eq_true.mp hr _ hmem
                    have hreq : oget entry "requiredItems" = .jlist items := (jget_ok hri).1
                    have := List.all_eq_true.mp hall item (by
                      simp only [hreq, listVal]
                      exact hitem)
                    simpa using this
                  have hks : h s ≤ k := by simpa [hvJ] using hk
                  have hloop : resolveItems (fun n m => resolveF k cb n m) mult items []
                      ≠ .error .fuelOut := by
                    apply resolveItems_ne_fuelOut
                    intro item hitem n m2 hn
                    have hlt : h (itemName item) < h s := hdec item hitem
                    have hk1 : 1 ≤ k := by omega
                    have hkn : hvJ h n ≤ k - 1 := by
                      cases n with
                      | jstr s2 =>
                        have hiname : itemName item = s2 := by
                          simp [itemName, (jget_ok hn).1, strVal]
                        simp only [hvJ]
                        rw [← hiname]
                        omega
                      | jnull => simp [hvJ]
                      | jbool b => simp [hvJ]
                      | jint i => simp [hvJ]
                      | jlist xs => simp [hvJ]
                      | jobj fs => simp [hvJ]
                    have := ih (k - 1) (by omega) n m2 hkn
                    rwa [show k - 1 + 1 = k by omega] at this
                  cases hl : resolveItems (fun n m => resolveF k cb n m) mult items [] with
                  | error e =>
                    have he : e ≠ .fuelOut := fun hee => hloop (by rw [hl, hee])
                    simp [hri, hl, he]
                  | ok d => simp [hri, hl]
                | jnull => simp [hri]
                | jbool b => simp [hri]
                | jint i => simp [hri]
                | jstr s2 => simp only [hri]; split <;> simp
                | jobj fs => simp only [hri]; split <;> simp
            · simp [hrec]
    | jnull => simp [resolveF]
    | jbool b => simp [resolveF]
    | jint i => simp [resolveF]
    | jlist xs => simp [resolveF]
    | jobj fs => simp [resolveF]

lemma cyc_fuelOut :
    ∀ (f : Nat) (m : Int),
      resolveF f cycCB (.jstr "A") (.jint m) = .error .fuelOut ∧
      resolveF f cycCB (.jstr "B") (.jint m) = .error .fuelOut := by
  intro f
  induction f with
  | zero => intro m; exact ⟨rfl, rfl⟩
  | succ f ih =>
    intro m
    constructor
    · have hsub := (ih m).2
      simp only [resolveF]
      rw [show alookup cycCB "A"
          = some (.jobj [("type", .jstr "recipe"), ("name", .jstr "A"),
              ("requiredItems", .jlist [reqI "B" 1])]) from rfl]
      simp [resolveItems, jget, oget, dget, alookup, reqI, isStrVal, pymul, intVal,
        mul_one, hsub]
    · have hsub := (ih m).1
      simp only [resolveF]
      rw [show alookup cycCB "B"
          = some (.jobj [("type", .jstr "recipe"), ("name", .jstr "B"),
              ("requiredItems", .jlist [reqI "A" 1])]) from rfl]
      simp [resolveItems, jget, oget, dget, alookup, reqI, isStrVal, pymul, intVal,
        mul_one, hsub]

lemma contains_eq_false_iff {l : List String} {s : String} :
    l.contains s = false ↔ s ∉ l := by
  simp

lemma checkItems_sound :
    ∀ (items : List JVal) (seen : List String), checkItems items seen = .ok none →
      (∀ it ∈ items, wfItem it = true) ∧ distinctB (items.map itemName) = true ∧
      (∀ s ∈ items.map itemName, seen.contains s = false) := by
  intro items
  induction items with
  | nil => intro seen _; exact ⟨by simp, rfl, by simp⟩
  | cons item rest ih =>
    intro seen h
    simp only [checkItems] at h
    cases hn : jget item "name" with
    | error e =>
      simp only [hn] at h
      exact absurd h (by simp)
    | ok rn =>
      simp only [hn] at h
      cases rn with
      | jstr s =>
        simp only [] at h
        by_cases hs : s = ""
        · rw [if_pos hs] at h
          simp at h
        · rw [if_neg hs] at h
          by_cases hcont : seen.contains s = true
          · rw [if_pos hcont] at h
            simp at h
          · rw [if_neg hcont] at h
            cases hq : jget item "quantity" with
            | error e => simp [hq] at h
            | ok q =>
              simp only [hq] at h
              by_cases hqi : isInt q = true
              · rw [if_pos hqi] at h
                obtain ⟨hwrest, hdrest, hsrest⟩ := ih (s :: seen) h
                have hwit : wfItem item = true := by
                  obtain ⟨hvn, fs, hfs⟩ := jget_ok hn
                  subst hfs
                  simp only [wfItem, hvn, (jget_ok hq).1, hqi, Bool.and_eq_true]
                  refine ⟨?_, trivial⟩
                  simp only [Bool.not_eq_true']
                  rw [Bool.eq_false_iff]
                  intro hh
                  exact hs ((String.isEmpty_iff s).mp hh)
                have hiname : itemName item = s := by
                  simp [itemName, (jget_ok hn).1, strVal]
                refine ⟨?_, ?_, ?_⟩
                · intro it hit
                  rcases List.mem_cons.mp hit with hh | hh
                  · subst hh; exact hwit
                  · exact hwrest it hh
                · simp only [List.map_cons, hiname, distinctB, Bool.and_eq_true]
                  refine ⟨?_, hdrest⟩
                  simp only [Bool.not_eq_true']
                  rw [contains_eq_false_iff]
                  intro hmem
                  have := hsrest s hmem
                  simp [List.contains_cons] at this
                · intro t ht
                  simp only [List.map_cons, hiname] at ht
                  rcases List.mem_cons.mp ht with hh | hh
                  · subst hh
                    simpa using hcont
                  · have := hsrest t hh
                    simp [List.contains_cons] at this
                    rw [contains_eq_false_iff]
                    exact this.2
              · rw [if_neg hqi] at h
                simp at h
      | jnull => simp only [] at h; exact absurd h (by simp)
      | jbool b => simp only [] at h; exact absurd h (by simp)
      | jint i => simp only [] at h; exact absurd h (by simp)
      | jlist xs => simp only [] at h; exact absurd h (by simp)
      | jobj fs => simp only [] at h; exact absurd h (by simp)

lemma dset_mem {α : Type} {cb : List (String × α)} {k : String} {v : α} {p : String × α}
    (h : p ∈ dset cb k v) : p ∈ cb ∨ p = (k, v) := by
  induction cb with
  | nil =>
    simp only [dset] at h
    exact Or.inr (by simpa using h)
  | cons q rest ih =>
    simp only [dset] at h
    split at h
    · rcases List.mem_cons.mp h with hh | hh
      · right; exact hh
      · left; exact List.mem_cons_of_mem _ hh
    · rcases List.mem_cons.mp h with hh | hh
      · left; rw [hh]; exact List.mem_cons_self _ _
      · rcases ih hh with h1 | h1
        · left; exact List.mem_cons_of_mem _ h1
        · right; exact h1

lemma wfCB_dset {cb : Cookbook} {k : String} {v : JVal} (hwf : wfCB cb = true)
    (hk : ¬k.isEmpty = true) (hv : wfEntry v = true) : wfCB (dset cb k v) = true := by
  simp only [wfCB, List.all_eq_true] at hwf ⊢
  intro p hp
  rcases dset_mem hp with hh | hh
  · exact hwf p hh
  · subst hh
    simp only [Bool.and_eq_true, Bool.not_eq_true']
    exact ⟨by simpa using hk, hv⟩

lemma create_entry_spec (e : JVal) (cb : Cookbook) :
    ((create_entry e cb).2 = cb ∧ (create_entry e cb).1 ≠ .ok .created) ∨
    ((create_entry e cb).1 = .ok .created ∧ ∃ s, oget e "name" = .jstr s ∧ s ≠ "" ∧
      alookup cb s = none ∧ wfEntry e = true ∧ (create_entry e cb).2 = dset cb s e) := by
  simp only [create_entry]
  repeat' split
  all_goals try exact Or.inl ⟨rfl, by simp⟩
  -- remaining goals: the two accepting paths (recipe and ingredient), a
  -- recipe accepting path under a dead ingredient-type hypothesis, and a
  -- dead branch with neither type
  · rename_i v fs hfalsy htype x2 s hname hs hing hct hdup hrec x1 items heqri x0 hchk
    have hdup2 : alookup cb s = none := by
      rcases hh : alookup cb s with _ | w
      · rfl
      · simp [hh] at hdup
    refine Or.inr ⟨rfl, s, hname, hs, hdup2, ?_, rfl⟩
    obtain ⟨hall, hdist, _⟩ := checkItems_sound items [] hchk
    simp only [wfEntry, Bool.or_eq_true, Bool.and_eq_true]
    refine Or.inr ⟨hrec, ?_⟩
    rw [heqri]
    simp only [Bool.and_eq_true, List.all_eq_true]
    exact ⟨hall, hdist⟩
  · rename_i v fs hfalsy htype x2 s hname hs hing hct hdup hrec
    have hdup2 : alookup cb s = none := by
      rcases hh : alookup cb s with _ | w
      · rfl
      · simp [hh] at hdup
    refine Or.inr ⟨rfl, s, hname, hs, hdup2, ?_, rfl⟩
    simp only [hing, Bool.true_and, Bool.or_eq_true, not_or, Bool.not_eq_true,
      decide_eq_true_eq] at hct
    have hnn := hct.1.1
    have hnint := hct.1.2
    have hlt := hct.2
    have hint : isInt (oget (JVal.jobj fs) "cookTime") = true := by
      simpa using hnint
    have hge : decide (0 ≤ intVal (oget (JVal.jobj fs) "cookTime")) = true := by
      simp only [decide_eq_true_eq]
      omega
    simp only [wfEntry, Bool.or_eq_true, Bool.and_eq_true]
    exact Or.inl ⟨⟨hing, hint⟩, hge⟩
  · rename_i v fs hfalsy htype x2 s hname hs hing hct hdup hrec x1 items heqri x0 hchk
    have hdup2 : alookup cb s = none := by
      rcases hh : alookup cb s with _ | w
      · rfl
      · simp [hh] at hdup
    refine Or.inr ⟨rfl, s, hname, hs, hdup2, ?_, rfl⟩
    obtain ⟨hall, hdist, _⟩ := checkItems_sound items [] hchk
    simp only [wfEntry, Bool.or_eq_true, Bool.and_eq_true]
    refine Or.inr ⟨hrec, ?_⟩
    rw [heqri]
    simp only [Bool.and_eq_true, List.all_eq_true]
    exact ⟨hall, hdist⟩
  · rename_i v fs hfalsy htype x2 s hname hs hing hct hdup hrec
    exfalso
    have hrecF : isStrVal (oget (JVal.jobj fs) "type") "recipe" = false := by
      simpa using hrec
    have hingF : isStrVal (oget (JVal.jobj fs) "type") "ingredient" = false := by
      simpa using hing
    simp [hrecF, hingF] at htype

lemma mergeSpec_keys :
    ∀ (b a : List (String × Int)) (p : String × Int), p ∈ mergeSpec a b →
      p.1 ∈ a.map Prod.fst ∨ p.1 ∈ b.map Prod.fst := by
  intro b
  induction b with
  | nil =>
    intro a p h
    left
    exact List.mem_map_of_mem _ h
  | cons q rest ih =>
    intro a p h
    obtain ⟨k, qv⟩ := q
    simp only [mergeSpec] at h
    rcases ih _ p h with hh | hh
    · obtain ⟨pp, hpp, hfst⟩ := List.mem_map.mp hh
      rcases dset_mem hpp with h1 | h1
      · left
        rw [← hfst]
        exact List.mem_map_of_mem _ h1
      · right
        rw [← hfst, h1]
        simp
    · right
      simp only [List.map_cons]
      exact List.mem_cons_of_mem _ hh

lemma resolveSpecItems_keys {reg : Reg} {f : Nat}
    (hres : ∀ n m d, resolveSpecF f reg n m = .ok d →
      ∀ p ∈ d, ∃ c, alookup reg p.1 = some (.ingredient c)) :
    ∀ (items : List (String × Int)) (acc d : List (String × Int)) (m : Int),
      (∀ p ∈ acc, ∃ c, alookup reg p.1 = some (.ingredient c)) →
      resolveSpecItems (fun n m2 => resolveSpecF f reg n m2) m items acc = .ok d →
      ∀ p ∈ d, ∃ c, alookup reg p.1 = some (.ingredient c) := by
  intro items
  induction items with
  | nil =>
    intro acc d m hacc h p hp
    simp only [resolveSpecItems] at h
    cases h
    exact hacc p hp
  | cons it rest ih =>
    intro acc d m hacc h p hp
    obtain ⟨subName, q⟩ := it
    simp only [resolveSpecItems] at h
    cases hr : resolveSpecF f reg subName (m * q) with
    | error e => simp [hr] at h
    | ok sub =>
      simp only [hr] at h
      refine ih (mergeSpec acc sub) d m ?_ h p hp
      intro pp hpp
      rcases mergeSpec_keys sub acc pp hpp with hh | hh
      · obtain ⟨p2, hp2, hfst⟩ := List.mem_map.mp hh
        rw [← hfst]
        exact hacc p2 hp2
      · obtain ⟨p2, hp2, hfst⟩ := List.mem_map.mp hh
        rw [← hfst]
        exact hres subName (m * q) sub hr p2 hp2

lemma resolveSpecF_keys :
    ∀ (f : Nat) (reg : Reg) (n : String) (m : Int) (d : List (String × Int)),
      resolveSpecF f reg n m = .ok d →
      ∀ p ∈ d, ∃ c, alookup reg p.1 = some (.ingredient c) := by
  intro f
  induction f with
  | zero => intro reg n m d h; simp [resolveSpecF] at h
  | succ f ih =>
    intro reg n m d h p hp
    simp only [resolveSpecF] at h
    cases hv : alookup reg n with
    | none => simp [hv] at h
    | some e =>
      simp only [hv] at h
      cases e with
      | ingredient ct =>
        simp only [] at h
        cases h
        simp only [List.mem_singleton] at hp
        subst hp
        exact ⟨ct, hv⟩
      | recipe items =>
        simp only [] at h
        exact resolveSpecItems_keys (fun n2 m2 d2 h2 => ih reg n2 m2 d2 h2)
          items [] d m (by simp) h p hp

lemma resolveF_no_none {cb : Cookbook} (hwf : wfCB cb = true) (f : Nat) (name mult : JVal) :
    resolveF f cb name mult ≠ .ok none := by
  cases f with
  | zero => simp [resolveF]
  | succ f =>
    cases name with
    | jstr s =>
      simp only [resolveF]
      cases hv : alookup cb s with
      | none => simp
      | some entry =>
        obtain ⟨hne, hwfv⟩ := wfCB_lookup hwf hv
        obtain ⟨hobj, hcases⟩ := wfEntry_elim hwfv
        rcases hcases with ⟨hty, _, _⟩ | ⟨hty, items, hreq, _, _⟩
        · simp [jget_obj hobj, hty, isStrVal]
        · simp only [jget_obj hobj, hty, hreq]
          rw [show isStrVal (JVal.jstr "recipe") "ingredient" = false from rfl]
          rw [show isStrVal (JVal.jstr "recipe") "recipe" = true from rfl]
          simp only [Bool.false_eq_true, if_false, if_true]
          cases hl : resolveItems (fun n m => resolveF f cb n m) mult items [] with
          | error e => simp [hl]
          | ok d => simp [hl]
    | jnull => simp [resolveF]
    | jbool b => simp [resolveF]
    | jint i => simp [resolveF]
    | jlist xs => simp [resolveF]
    | jobj fs => simp [resolveF]

lemma checkItems_no_raise :
    ∀ (items : List JVal), (∀ x ∈ items, ∃ gs, x = .jobj gs) →
      ∀ seen, ∃ r, checkItems items seen = .ok r := by
  intro items
  induction items with
  | nil => intro _ seen; exact ⟨none, rfl⟩
  | cons item rest ih =>
    intro hobj seen
    obtain ⟨gs, hgs⟩ := hobj item (List.mem_cons_self _ _)
    subst hgs
    simp only [checkItems, jget]
    split
    · split
      · exact ⟨_, rfl⟩
      · split
        · exact ⟨_, rfl⟩
        · split
          · exact ih (fun x hx => hobj x (List.mem_cons_of_mem _ hx)) _
          · exact ⟨_, rfl⟩
    · exact ⟨_, rfl⟩

lemma checkItems_append (good : List JVal) :
    ∀ (seen : List String) (rest : List JVal),
      (∀ it ∈ good, wfItem it = true) →
      (∀ s ∈ good.map itemName, seen.contains s = false) →
      distinctB (good.map itemName) = true →
      checkItems (good ++ rest) seen
        = checkItems rest ((good.map itemName).reverse ++ seen) := by
  induction good with
  | nil => intro seen rest _ _ _; rfl
  | cons g good' ih =>
    intro seen rest hwf hseen hdist
    obtain ⟨hobj, ⟨s, hname, hs⟩, hq⟩ := wfItem_elim (hwf g (List.mem_cons_self _ _))
    have hnameg : itemName g = s := by simp [itemName, hname, strVal]
    have hcont : ¬seen.contains s = true := by
      have := hseen s (by simp [hnameg])
      simp only [this]
      simp
    simp only [List.cons_append, checkItems, jget_obj hobj, hname]
    rw [if_neg hs, if_neg hcont, if_pos hq]
    rw [show good'.append rest = good' ++ rest from rfl]
    rw [ih (s :: seen) rest (fun it hit => hwf it (List.mem_cons_of_mem _ hit)) ?hseen2 ?hdist2]
    · simp [hnameg, List.reverse_cons, List.append_assoc]
    case hseen2 =>
      intro t ht
      have hts : t ≠ s := by
        intro hts
        subst hts
        have hd := hdist
        simp only [List.map_cons, hnameg, distinctB, Bool.and_eq_true, Bool.not_eq_true'] at hd
        rw [contains_eq_false_iff] at hd
        exact hd.1 ht
      have hcontt := hseen t (by rw [List.map_cons]; exact List.mem_cons_of_mem _ ht)
      rw [List.contains_cons]
      simp [hts]
      exact contains_eq_false_iff.mp hcontt
    case hdist2 =>
      simp only [List.map_cons, hnameg, distinctB, Bool.and_eq_true] at hdist
      exact hdist.2

lemma summaryF_cases {cb : Cookbook} (hwf : wfCB cb = true) (f : Nat) (r : String) :
    (alookup cb r = none → summaryF f cb r = .ok (.clientError "Recipe not found")) ∧
    (∀ v, alookup cb r = some v → isStrVal (oget v "type") "ingredient" = true →
      summaryF f cb r = .ok (.clientError "Can only summarise recipe types")) ∧
    (∀ v e, alookup cb r = some v → isStrVal (oget v "type") "recipe" = true →
      resolveF f cb (.jstr r) (.jint 1) = .error e → e ≠ .fuelOut →
      summaryF f cb r
        = .ok (.clientError "A base ingredient provided does not exist in the cookbook")) ∧
    (summaryF f cb r = .ok (.clientError "Recipe not found") → alookup cb r = none) := by
  refine ⟨?_, ?_, ?_, ?_⟩
  · intro h
    simp [summaryF, h]
  · intro v hv hty
    obtain ⟨hne, hwfv⟩ := wfCB_lookup hwf hv
    obtain ⟨hobj, _⟩ := wfEntry_elim hwfv
    have hr : ¬r = "" := by
      intro hr0
      subst hr0
      exact absurd hne (by decide)
    simp only [summaryF, hv, hr, Option.isNone_some, Bool.or_self, Bool.false_eq_true,
      if_false, jget_obj hobj, isStrVal_eq hty]
    simp [isStrVal]
  · intro v e hv hty hres he
    obtain ⟨hne, hwfv⟩ := wfCB_lookup hwf hv
    obtain ⟨hobj, _⟩ := wfEntry_elim hwfv
    have hr : ¬r = "" := by
      intro hr0
      subst hr0
      exact absurd hne (by decide)
    simp only [summaryF, hv, hr, Option.isNone_some, Bool.or_self, Bool.false_eq_true,
      if_false, jget_obj hobj, isStrVal_eq hty, hres]
    rw [show isStrVal (JVal.jstr "recipe") "recipe" = true from rfl]
    simp only [Bool.not_true, Bool.false_eq_true, if_false]
    cases e <;> simp at he ⊢
  · intro h
    cases hv : alookup cb r with
    | none => rfl
    | some v =>
      exfalso
      obtain ⟨hne, hwfv⟩ := wfCB_lookup hwf hv
      obtain ⟨hobj, hcases⟩ := wfEntry_elim hwfv
      have hr : ¬r = "" := by
        intro hr0
        subst hr0
        exact absurd hne (by decide)
      rcases hcases with ⟨hty, _, _⟩ | ⟨hty, items, hreq, _, _⟩
      · simp only [summaryF, hv, hr, Option.isNone_some, Bool.or_self, Bool.false_eq_true,
          if_false, jget_obj hobj, hty] at h
        simp [isStrVal] at h
      · simp only [summaryF, hv, hr, Option.isNone_some, Bool.or_self, Bool.false_eq_true,
          if_false, jget_obj hobj, hty] at h
        rw [show isStrVal (JVal.jstr "recipe") "recipe" = true from rfl] at h
        simp only [Bool.not_true, Bool.false_eq_true, if_false] at h
        cases hres : resolveF f cb (.jstr r) (.jint 1) with
        | error e =>
          rw [hres] at h
          cases e <;> simp at h
        | ok od =>
          rw [hres] at h
          cases od with
          | none => simp at h
          | some d =>
            cases hsl : sumLoop cb d (.jint 0) [] with
            | error e2 => simp [hsl] at h
            | ok pr => simp [hsl] at h

example : create_entry (.jlist [.jnull]) [] = (.error .attrError, []) := rfl

example :
    create_entry (.jobj [("type", .jstr "ingredient"), ("name", .jstr "egg"),
      ("cookTime", .jint 10)]) []
      = (.ok .created, [("egg", .jobj [("type", .jstr "ingredient"), ("name", .jstr "egg"),
          ("cookTime", .jint 10)])]) := rfl

/-- C1: for every well-formed registry (the invariant the write path
establishes) and every multiplier, `get_base_ingredient_counts` agrees at
every fuel with the spec's reference resolver: absent names fail with
`UnknownReference(name)` (the raised `Exception`, `PyExc.notFound`), an
Ingredient returns the singleton `{name: multiplier}`, and a Recipe merges
the recursive resolutions of its requiredItems in order, summing
quantities on key collision. The second conjunct exercises the summing on
a diamond registry where flour is reachable along two sub-paths: its
contributions add to 5, they are not overwritten. -/
theorem claim_C1_resolver_matches_reference :
    (∀ cb : Cookbook, wfCB cb = true → ∀ (f : Nat) (name : String) (m : Int),
      resolveF f cb (.jstr name) (.jint m) = trRes (resolveSpecF f (absCB cb) name m)) ∧
    (∀ g : Nat, resolveF (g + 3) diamondCB (.jstr "cake") (.jint 1)
      = .ok (some [("flour", .jint 5)])) := by
  constructor
  · intro cb hwf f name m
    exact resolveF_corr hwf f name m
  · intro g
    have h3 : resolveF 3 diamondCB (.jstr "cake") (.jint 1)
        = .ok (some [("flour", .jint 5)]) := rfl
    rw [resolveF_mono_le diamondCB 3 (g + 3) (by omega) _ _ (by rw [h3]; simp)]
    exact h3

/-- Witness for C1 at the §8 example registry. -/
theorem claim_C1_witness :
    wfCB exCB = true ∧
    resolveF 3 exCB (.jstr "pasta") (.jint 1)
      = trRes (resolveSpecF 3 (absCB exCB) "pasta" 1) :=
  ⟨rfl, claim_C1_resolver_matches_reference.1 exCB rfl 3 "pasta" 1⟩

/-- C2: on the §8 registry {egg: ingredient 10, flour: ingredient 0,
dough: recipe [(flour,2)], pasta: recipe [(dough,1),(egg,3)]},
`resolve(pasta, 1)` returns exactly {flour: 2, egg: 3} (at every
sufficient fuel), and `summary` succeeds with name pasta, cookTime 30 and
an ingredients list that is a permutation of [{flour,2},{egg,3}]
(order-insensitive). -/
theorem claim_C2_pasta_example :
    (∀ g : Nat, resolveF (g + 3) exCB (.jstr "pasta") (.jint 1)
      = .ok (some [("flour", .jint 2), ("egg", .jint 3)])) ∧
    (∃ l : List JVal,
      (∀ g : Nat, summaryF (g + 3) exCB "pasta"
        = .ok (.success (.jobj [("name", .jstr "pasta"), ("cookTime", .jint 30),
            ("ingredients", .jlist l)]))) ∧
      l.Perm [.jobj [("name", .jstr "flour"), ("quantity", .jint 2)],
              .jobj [("name", .jstr "egg"), ("quantity", .jint 3)]]) := by
  have h3 : resolveF 3 exCB (.jstr "pasta") (.jint 1)
      = .ok (some [("flour", .jint 2), ("egg", .jint 3)]) := rfl
  have hmono : ∀ g : Nat, resolveF (g + 3) exCB (.jstr "pasta") (.jint 1)
      = resolveF 3 exCB (.jstr "pasta") (.jint 1) := by
    intro g
    exact resolveF_mono_le exCB 3 (g + 3) (by omega) _ _ (by rw [h3]; simp)
  constructor
  · intro g
    rw [hmono g, h3]
  · refine ⟨[.jobj [("name", .jstr "flour"), ("quantity", .jint 2)],
      .jobj [("name", .jstr "egg"), ("quantity", .jint 3)]], ?_, List.Perm.refl _⟩
    intro g
    rw [summaryF_fuel_congr (hmono g)]
    rfl

/-- C3: resolution is linear in the multiplier. On every well-formed
registry, if `resolve(name, 1)` succeeds with mapping `d` then
`resolve(name, k)` succeeds (at the same fuel) and maps every base
ingredient to `k` times its quantity in `d`; on the §8 registry,
`resolve(pasta, 2)` returns {flour: 4, egg: 6}. -/
theorem claim_C3_multiplier_scaling :
    (∀ (cb : Cookbook) (f : Nat) (n : String) (k : Int) (d : List (String × JVal)),
      wfCB cb = true → resolveF f cb (.jstr n) (.jint 1) = .ok (some d) →
      resolveF f cb (.jstr n) (.jint k) = .ok (some (scaleJ k d))) ∧
    (∀ g : Nat, resolveF (g + 3) exCB (.jstr "pasta") (.jint 2)
      = .ok (some [("flour", .jint 4), ("egg", .jint 6)])) := by
  constructor
  · intro cb f n k d hwf hres
    rw [resolveF_corr hwf f n 1] at hres
    cases hspec : resolveSpecF f (absCB cb) n 1 with
    | error e =>
      rw [hspec] at hres
      cases e <;> simp [trRes] at hres
    | ok d0 =>
      rw [hspec] at hres
      simp only [trRes, Except.ok.injEq, Option.some.injEq] at hres
      subst hres
      have hk : resolveSpecF f (absCB cb) n k = .ok (scaleSpec k d0) := by
        have := resolveSpecF_scale f (absCB cb) n k 1
        rw [mul_one, hspec] at this
        simpa [Except.map] using this
      rw [resolveF_corr hwf f n k, hk]
      simp [trRes, encD_scaleSpec]
  · intro g
    have h3 : resolveF 3 exCB (.jstr "pasta") (.jint 2)
        = .ok (some [("flour", .jint 4), ("egg", .jint 6)]) := rfl
    rw [resolveF_mono_le exCB 3 (g + 3) (by omega) _ _ (by rw [h3]; simp)]
    exact h3

/-- Witness for C3 at the §8 example registry with k = 2. -/
theorem claim_C3_witness :
    wfCB exCB = true ∧
    resolveF 3 exCB (.jstr "pasta") (.jint 1)
      = .ok (some [("flour", .jint 2), ("egg", .jint 3)]) ∧
    resolveF 3 exCB (.jstr "pasta") (.jint 2)
      = .ok (some (scaleJ 2 [("flour", .jint 2), ("egg", .jint 3)])) :=
  ⟨rfl, rfl, claim_C3_multiplier_scaling.1 exCB 3 "pasta" 2
    [("flour", .jint 2), ("egg", .jint 3)] rfl rfl⟩

/-- C4: validation is atomic. Whenever `create_entry` does not accept
(any rejection message or raised fault), the cookbook is left exactly as
it was; and a second payload whose name already exists — and which passes
the type, name and cookTime rules — is rejected with the DuplicateName
message `"Entry names must be unique"`, the cookbook retaining only the
first entry under that name. -/
theorem claim_C4_validation_atomic :
    (∀ (e : JVal) (cb : Cookbook), (create_entry e cb).1 ≠ .ok .created →
      (create_entry e cb).2 = cb) ∧
    (∀ (e : JVal) (cb : Cookbook) (n : String) (v : JVal),
      alookup cb n = some v → (∃ fs, e = .jobj fs) → oget e "name" = .jstr n → n ≠ "" →
      (isStrVal (oget e "type") "recipe" = true ∨
        isStrVal (oget e "type") "ingredient" = true) →
      (isStrVal (oget e "type") "ingredient" = true →
        (isNull (oget e "cookTime") || !isInt (oget e "cookTime") ||
          decide (intVal (oget e "cookTime") < 0)) = false) →
      create_entry e cb = (.ok (.badReq "Entry names must be unique"), cb) ∧
      alookup (create_entry e cb).2 n = some v) := by
  constructor
  · intro e cb h
    rcases create_entry_spec e cb with ⟨h2, _⟩ | ⟨h1, _⟩
    · exact h2
    · exact absurd h1 h
  · intro e cb n v hv hobj hname hn htyor hct
    obtain ⟨fs, rfl⟩ := hobj
    have hnf : (JVal.jobj fs).falsy = false := by
      cases fs with
      | nil => simp [oget, dget, alookup] at hname
      | cons p rest => rfl
    have htyF : (!(isStrVal (oget (JVal.jobj fs) "type") "recipe" ||
        isStrVal (oget (JVal.jobj fs) "type") "ingredient")) = false := by
      rcases htyor with hh | hh <;> simp [hh]
    have hctF : (isStrVal (oget (JVal.jobj fs) "type") "ingredient" &&
        (isNull (if isStrVal (oget (JVal.jobj fs) "type") "ingredient" = true
            then oget (JVal.jobj fs) "cookTime" else .jnull) ||
          !isInt (if isStrVal (oget (JVal.jobj fs) "type") "ingredient" = true
            then oget (JVal.jobj fs) "cookTime" else .jnull) ||
          decide (intVal (if isStrVal (oget (JVal.jobj fs) "type") "ingredient" = true
            then oget (JVal.jobj fs) "cookTime" else .jnull) < 0))) = false := by
      by_cases hi : isStrVal (oget (JVal.jobj fs) "type") "ingredient" = true
      · rw [if_pos hi, hi, Bool.true_and]
        exact hct hi
      · simp only [Bool.not_eq_true] at hi
        rw [hi, Bool.false_and]
    have hsome : (alookup cb n).isSome = true := by
      rw [hv]
      rfl
    have hres : create_entry (JVal.jobj fs) cb
        = (.ok (.badReq "Entry names must be unique"), cb) := by
      simp only [create_entry, hnf, Bool.false_eq_true, if_false, hname]
      rw [htyF]
      simp only [Bool.false_eq_true, if_false]
      rw [if_neg hn]
      rw [hctF]
      simp only [Bool.false_eq_true, if_false]
      rw [if_pos hsome]
    rw [hres]
    exact ⟨rfl, hv⟩

/-- Witness for C4: inserting a second `egg` over an existing one. -/
theorem claim_C4_witness :
    create_entry (.jobj [("type", .jstr "ingredient"), ("name", .jstr "egg"),
        ("cookTime", .jint 5)]) [mkIngredient "egg" 10]
      = (.ok (.badReq "Entry names must be unique"), [mkIngredient "egg" 10]) :=
  (claim_C4_validation_atomic.2
    (.jobj [("type", .jstr "ingredient"), ("name", .jstr "egg"), ("cookTime", .jint 5)])
    [mkIngredient "egg" 10] "egg" (mkIngredient "egg" 10).2 rfl ⟨_, rfl⟩ rfl
    (by decide) (Or.inr rfl) (fun _ => rfl)).1

lemma contains_eq_true_iff {l : List String} {s : String} :
    l.contains s = true ↔ s ∈ l := by
  simp

lemma create_entry_recipePayload (cb : Cookbook) (nm : String) (items : List JVal)
    (hn : nm ≠ "") (hdup : alookup cb nm = none) :
    create_entry (.jobj [("type", .jstr "recipe"), ("name", .jstr nm),
      ("requiredItems", .jlist items)]) cb
      = (match checkItems items [] with
         | .error e => (.error e, cb)
         | .ok (some msg) => (.ok (.badReq msg), cb)
         | .ok none => (.ok .created, dset cb nm (.jobj [("type", .jstr "recipe"),
             ("name", .jstr nm), ("requiredItems", .jlist items)]))) := by
  have hsome : (alookup cb nm).isSome = false := by rw [hdup]; rfl
  simp only [create_entry]
  simp [oget, dget, alookup, isStrVal, isNull, isInt, intVal, JVal.falsy, hsome, hn]

/-- C5 counterexample: a recipe whose second required item both repeats the
first item's name and carries a non-integer quantity is rejected with the
DuplicateRequiredItemName message, not the InvalidRequiredItem one — the
source checks the duplicate-name set before the quantity shape. -/
theorem claim_C5_counterexample :
    create_entry (.jobj [("type", .jstr "recipe"), ("name", .jstr "r"),
        ("requiredItems", .jlist [reqI "a" 1,
          .jobj [("name", .jstr "a"), ("quantity", .jstr "x")]])]) []
      = (.ok (.badReq "Invalid required items, multiple of the same name"), []) ∧
    "Invalid required items, multiple of the same name" ≠ "Invalid requiredItem quantity" ∧
    "Invalid required items, multiple of the same name" ≠ "Invalid requiredItem name" :=
  ⟨rfl, by decide, by decide⟩

/-- C5 as amended: within rule 5 the per-element order is name shape, then
duplicate name, then quantity shape. For a recipe payload whose prefix of
required items is fully valid with pairwise-distinct names: an element
whose valid name repeats an earlier name is rejected as
DuplicateRequiredItemName regardless of its quantity (even a non-integer
one); an element with a valid fresh name but non-integer quantity is
rejected as InvalidRequiredItem (quantity); and an element with a
missing/empty/non-string name is rejected as InvalidRequiredItem (name). -/
theorem claim_C5_duplicate_precedes_quantity :
    ∀ (cb : Cookbook) (nm : String) (good : List JVal) (item : JVal)
      (gs : List (String × JVal)),
      nm ≠ "" → alookup cb nm = none →
      (∀ it ∈ good, wfItem it = true) → distinctB (good.map itemName) = true →
      item = .jobj gs →
      ((∀ t, oget item "name" = .jstr t → t ≠ "" → t ∈ good.map itemName →
        create_entry (.jobj [("type", .jstr "recipe"), ("name", .jstr nm),
            ("requiredItems", .jlist (good ++ [item]))]) cb
          = (.ok (.badReq "Invalid required items, multiple of the same name"), cb)) ∧
       (∀ t, oget item "name" = .jstr t → t ≠ "" → t ∉ good.map itemName →
        isInt (oget item "quantity") = false →
        create_entry (.jobj [("type", .jstr "recipe"), ("name", .jstr nm),
            ("requiredItems", .jlist (good ++ [item]))]) cb
          = (.ok (.badReq "Invalid requiredItem quantity"), cb)) ∧
       ((isStr (oget item "name") = false ∨ oget item "name" = .jstr "") →
        create_entry (.jobj [("type", .jstr "recipe"), ("name", .jstr nm),
            ("requiredItems", .jlist (good ++ [item]))]) cb
          = (.ok (.badReq "Invalid requiredItem name"), cb))) := by
  intro cb nm good item gs hn hdup hgood hdist hobj
  have hobj2 : ∃ g2, item = .jobj g2 := ⟨gs, hobj⟩
  refine ⟨?_, ?_, ?_⟩
  · intro t hnamet ht0 htin
    have hcontT : ((good.map itemName).reverse ++ ([] : List String)).contains t = true := by
      rw [List.append_nil, contains_eq_true_iff, List.mem_reverse]
      exact htin
    have hchk : checkItems (good ++ [item]) []
        = .ok (some "Invalid required items, multiple of the same name") := by
      rw [checkItems_append good [] [item] hgood (by simp) hdist]
      simp only [checkItems, jget_obj hobj2, hnamet]
      rw [if_neg ht0, if_pos hcontT]
    rw [create_entry_recipePayload cb nm (good ++ [item]) hn hdup, hchk]
  · intro t hnamet ht0 htin hq
    have hcontF : ((good.map itemName).reverse ++ ([] : List String)).contains t = false := by
      rw [List.append_nil, contains_eq_false_iff, List.mem_reverse]
      exact htin
    have hchk : checkItems (good ++ [item]) []
        = .ok (some "Invalid requiredItem quantity") := by
      rw [checkItems_append good [] [item] hgood (by simp) hdist]
      simp only [checkItems, jget_obj hobj2, hnamet]
      rw [if_neg ht0, if_neg (by rw [hcontF]; simp), if_neg (by rw [hq]; simp)]
    rw [create_entry_recipePayload cb nm (good ++ [item]) hn hdup, hchk]
  · intro hbad
    have hchk : checkItems (good ++ [item]) []
        = .ok (some "Invalid requiredItem name") := by
      rw [checkItems_append good [] [item] hgood (by simp) hdist]
      rcases hbad with hnost | hempty
      · simp only [checkItems, jget_obj hobj2]
        cases hrn : oget item "name" with
        | jstr s2 => rw [hrn] at hnost; simp [isStr] at hnost
        | jnull => rfl
        | jbool b => rfl
        | jint i => rfl
        | jlist xs => rfl
        | jobj fs2 => rfl
      · simp only [checkItems, jget_obj hobj2, hempty]
        simp
    rw [create_entry_recipePayload cb nm (good ++ [item]) hn hdup, hchk]

/-- Witness for C5: the counterexample payload, via the amended theorem. -/
theorem claim_C5_witness :
    create_entry (.jobj [("type", .jstr "recipe"), ("name", .jstr "r"),
        ("requiredItems", .jlist ([reqI "a" 1] ++
          [.jobj [("name", .jstr "a"), ("quantity", .jstr "x")]]))]) []
      = (.ok (.badReq "Invalid required items, multiple of the same name"), []) :=
  (claim_C5_duplicate_precedes_quantity [] "r" [reqI "a" 1]
    (.jobj [("name", .jstr "a"), ("quantity", .jstr "x")])
    [("name", .jstr "a"), ("quantity", .jstr "x")]
    (by decide) rfl (by decide) (by decide) rfl).1 "a" rfl (by decide) (by decide)

/-- C6 counterexample: the validator is not total. A truthy non-object
payload (here the JSON array `[null]`) reaches `entry.get("type")` and
raises `AttributeError`; likewise a recipe whose requiredItems contains a
non-object element (here the integer `5`) raises inside the validation
loop. Both are ambient faults propagated to the caller, not tagged
rejections. -/
theorem claim_C6_counterexample :
    (create_entry (.jlist [.jnull]) []).1 = .error .attrError ∧
    (create_entry (.jobj [("type", .jstr "recipe"), ("name", .jstr "r"),
        ("requiredItems", .jlist [.jint 5])]) []).1 = .error .attrError :=
  ⟨rfl, rfl⟩

/-- C6 as amended: the validator is total on the payloads whose shape
keeps Python's attribute accesses defined — every falsy payload, and
every JSON object payload whose requiredItems elements (when that field
is a list) are all objects. On those it always returns `.ok` (an accepted
entry or a tagged rejection message), never a raised fault. -/
theorem claim_C6_total_on_object_payloads :
    ∀ (e : JVal) (cb : Cookbook),
      (e.falsy = true ∨ ((∃ fs, e = .jobj fs) ∧
        ∀ x ∈ listVal (oget e "requiredItems"), ∃ gs, x = .jobj gs)) →
      ∃ r, (create_entry e cb).1 = .ok r := by
  intro e cb h
  rcases h with hf | ⟨⟨fs, rfl⟩, hitems⟩
  · exact ⟨.badReq "Invalid entry format", by simp [create_entry, hf]⟩
  · simp only [create_entry]
    repeat' split
    all_goals try exact ⟨_, rfl⟩
    all_goals
      (exfalso
       rename_i xs heqri xsc x2 heq
       obtain ⟨r, hr⟩ := checkItems_no_raise xs
         (fun x hx => hitems x (by rw [heqri]; simpa [listVal] using hx)) []
       rw [hr] at heq
       exact Except.noConfusion heq)

/-- Witness for C6: an object payload with a bad type is rejected with a
tagged message, not a fault. -/
theorem claim_C6_witness :
    ∃ r, (create_entry (.jobj [("type", .jstr "x")]) []).1 = .ok r :=
  claim_C6_total_on_object_payloads (.jobj [("type", .jstr "x")]) []
    (Or.inr ⟨⟨_, rfl⟩, by simp [oget, dget, alookup, listVal]⟩)

/-- C7: on a well-formed registry, `summary` fails with the RecipeNotFound
message exactly when the queried name is absent; fails with the NotARecipe
message when the entry exists but is an Ingredient; and collapses every
resolver exception at any depth (`notFound` for unknown references, and
every other raised fault — everything but the nontermination marker
`fuelOut`) into the single IngredientResolutionFailed message, returning
no partial result and raising nothing. -/
theorem claim_C7_summary_error_taxonomy :
    ∀ (cb : Cookbook) (f : Nat) (r : String), wfCB cb = true →
      ((alookup cb r = none → summaryF f cb r = .ok (.clientError "Recipe not found")) ∧
       (∀ v, alookup cb r = some v → isStrVal (oget v "type") "ingredient" = true →
         summaryF f cb r = .ok (.clientError "Can only summarise recipe types")) ∧
       (∀ v e, alookup cb r = some v → isStrVal (oget v "type") "recipe" = true →
         resolveF f cb (.jstr r) (.jint 1) = .error e → e ≠ .fuelOut →
         summaryF f cb r
           = .ok (.clientError "A base ingredient provided does not exist in the cookbook")) ∧
       (summaryF f cb r = .ok (.clientError "Recipe not found") → alookup cb r = none)) :=
  fun cb f r hwf => summaryF_cases hwf f r

/-- Witness for C7: a registry whose only recipe requires a missing name
fails with the IngredientResolutionFailed message. -/
theorem claim_C7_witness :
    wfCB [mkRecipe "bad" [reqI "ghost" 1]] = true ∧
    summaryF 5 [mkRecipe "bad" [reqI "ghost" 1]] "bad"
      = .ok (.clientError "A base ingredient provided does not exist in the cookbook") :=
  ⟨rfl, (claim_C7_summary_error_taxonomy [mkRecipe "bad" [reqI "ghost" 1]] 5 "bad"
    rfl).2.2.1 (mkRecipe "bad" [reqI "ghost" 1]).2 (.notFound (.jstr "ghost")) rfl rfl rfl
    (by simp)⟩

/-- C8: termination. For every cookbook whose required-item reference
graph admits a strictly decreasing rank (on a finite graph such a rank
exists exactly when the graph is acyclic), the resolver terminates — some
finite fuel suffices, i.e. the outcome is not fuel exhaustion — for every
queried name and multiplier. Conversely, on the two-recipe cycle
A → B → A the recursion exhausts every fuel bound: it does not terminate,
the source having no cycle guard. -/
theorem claim_C8_termination :
    (∀ (cb : Cookbook) (h : String → Nat), rankOK cb h = true →
      ∀ (name mult : JVal), ∃ f, resolveF f cb name mult ≠ .error .fuelOut) ∧
    (∀ (f : Nat) (m : Int), resolveF f cycCB (.jstr "A") (.jint m) = .error .fuelOut) := by
  constructor
  · intro cb h hr name mult
    exact ⟨hvJ h name + 1, resolveF_rank cb h hr (hvJ h name) name mult (le_refl _)⟩
  · intro f m
    exact (cyc_fuelOut f m).1

/-- Witness for C8: the §8 registry with its topological rank. -/
theorem claim_C8_witness :
    rankOK exCB (fun s => if s = "pasta" then 2 else if s = "dough" then 1 else 0) = true ∧
    ∃ f, resolveF f exCB (.jstr "pasta") (.jint 1) ≠ .error .fuelOut :=
  ⟨by decide, claim_C8_termination.1 exCB
    (fun s => if s = "pasta" then 2 else if s = "dough" then 1 else 0) (by decide)
    (.jstr "pasta") (.jint 1)⟩

/-- C9: Registry well-formedness is an invariant. The single write path
preserves it: starting from a well-formed cookbook, whatever payload is
submitted, the cookbook after `create_entry` is still well-formed (every
stored entry a dict typed exactly `'ingredient'` — with an isinstance
integer cookTime ≥ 0 — or `'recipe'` — with a list of well-formed,
distinctly named RequiredItems). Consequently the resolver's type
dispatch never falls off the end (never returns Python `None`), and every
base ingredient it resolves is stored as an ingredient entry carrying an
isinstance-integer cookTime, which is what the summary loop reads. -/
theorem claim_C9_registry_invariant :
    (∀ (e : JVal) (cb : Cookbook), wfCB cb = true →
      wfCB (create_entry e cb).2 = true) ∧
    (∀ cb : Cookbook, wfCB cb = true → ∀ (f : Nat) (name mult : JVal),
      resolveF f cb name mult ≠ .ok none) ∧
    (∀ (cb : Cookbook) (f : Nat) (n : String) (m : Int) (d : List (String × JVal)),
      wfCB cb = true → resolveF f cb (.jstr n) (.jint m) = .ok (some d) →
      ∀ p ∈ d, ∃ v, alookup cb p.1 = some v ∧
        isStrVal (oget v "type") "ingredient" = true ∧
        isInt (oget v "cookTime") = true) := by
  refine ⟨?_, ?_, ?_⟩
  · intro e cb hwf
    rcases create_entry_spec e cb with ⟨h2, _⟩ | ⟨_, s, hname, hs, _, hwfe, h2⟩
    · rw [h2]; exact hwf
    · rw [h2]
      refine wfCB_dset hwf ?_ hwfe
      intro hh
      exact hs ((String.isEmpty_iff s).mp hh)
  · intro cb hwf f name mult
    exact resolveF_no_none hwf f name mult
  · intro cb f n m d hwf hres p hp
    rw [resolveF_corr hwf f n m] at hres
    cases hspec : resolveSpecF f (absCB cb) n m with
    | error e =>
      rw [hspec] at hres
      cases e <;> simp [trRes] at hres
    | ok d0 =>
      rw [hspec] at hres
      simp only [trRes, Except.ok.injEq, Option.some.injEq] at hres
      subst hres
      obtain ⟨p0, hp0, hpe⟩ := List.mem_map.mp hp
      obtain ⟨c, hc⟩ := resolveSpecF_keys f (absCB cb) n m d0 hspec p0 hp0
      rw [show absCB cb = cb.map (fun q => (q.1, absEntry q.2)) from rfl, alookup_map] at hc
      cases hv : alookup cb p0.1 with
      | none => rw [hv] at hc; simp at hc
      | some v =>
        rw [hv] at hc
        simp only [Option.map_some', Option.some.injEq] at hc
        have hty : isStrVal (oget v "type") "ingredient" = true := by
          by_contra hcon
          simp only [absEntry] at hc
          rw [if_neg hcon] at hc
          exact Entry.noConfusion hc
        obtain ⟨_, hcases⟩ := wfEntry_elim (wfCB_lookup hwf hv).2
        rcases hcases with ⟨_, hint, _⟩ | ⟨htyR, _⟩
        · refine ⟨v, ?_, hty, hint⟩
          rw [← hpe]
          exact hv
        · exfalso
          rw [htyR] at hty
          exact absurd hty (by decide)

/-- Witness for C9: inserting the egg payload into the empty registry
leaves a well-formed registry. -/
theorem claim_C9_witness :
    wfCB ([] : Cookbook) = true ∧
    wfCB (create_entry (.jobj [("type", .jstr "ingredient"), ("name", .jstr "egg"),
      ("cookTime", .jint 10)]) []).2 = true :=
  ⟨rfl, claim_C9_registry_invariant.1
    (.jobj [("type", .jstr "ingredient"), ("name", .jstr "egg"), ("cookTime", .jint 10)])
    [] rfl⟩

/-- C10: every falsy payload — including the empty JSON object `{}` — is
rejected with the distinct `"Invalid entry format"` message before rule
1's type check runs, and the registry is left unchanged; in particular an
empty object is not rejected with the InvalidType message. -/
theorem claim_C10_falsy_rejected_first :
    ∀ (e : JVal) (cb : Cookbook), e.falsy = true →
      create_entry e cb = (.ok (.badReq "Invalid entry format"), cb) ∧
      (create_entry e cb).1 ≠ .ok (.badReq "Type must be recipe or ingredient") := by
  intro e cb hf
  have h : create_entry e cb = (.ok (.badReq "Invalid entry format"), cb) := by
    simp [create_entry, hf]
  refine ⟨h, ?_⟩
  rw [h]
  simp

/-- Witness for C10: the empty JSON object. -/
theorem claim_C10_witness :
    JVal.falsy (.jobj []) = true ∧
    create_entry (.jobj []) [] = (.ok (.badReq "Invalid entry format"), []) :=
  ⟨rfl, (claim_C10_falsy_rejected_first (.jobj []) [] rfl).1⟩
